import Mathlib

/-!
# openai-proxy: the request handler of `main.go` and `token.go`

A shallow embedding of `handleRequest` (main.go) and `getVertexAuthToken`
(token.go).  Go strings are byte sequences and are modelled as lists of byte
values.  The standard-library functions the handler calls on strings and header
maps are modelled from their documented behaviour; the network, the `gcloud`
subprocess and the URL parser are parameters collected in `World`.
-/

namespace OpenAIProxy

/-! ## Strings -/

/-- A Go string: its bytes, in order. -/
abbrev Str := List Nat

/-- The bytes of an ASCII literal of the source. -/
def lit (s : String) : Str := s.toList.map Char.toNat

/-- Go `strings.HasPrefix(s, p)`. -/
def HasPrefix (s p : Str) : Bool := p.isPrefixOf s

/-- Go `strings.Index(s, substr)`: the index of the first instance of `substr`
in `s`; `none` stands for Go's `-1`. -/
def Index : Str → Str → Option Nat
  | [], substr => if substr = [] then some 0 else none
  | c :: s, substr =>
    if HasPrefix (c :: s) substr then some 0
    else (Index s substr).map (· + 1)

/-- Go `strings.Contains(s, substr)`, which is `Index(s, substr) >= 0`. -/
def Contains (s substr : Str) : Bool := (Index s substr).isSome

/-- Go `strings.Replace(s, old, new, n)` for a non-empty `old` and `n ≥ 0`:
the first `n` non-overlapping instances of `old`, found left to right, are
replaced by `new`. -/
def Replace (s old new : Str) : Nat → Str
  | 0 => s
  | n + 1 =>
    match Index s old with
    | none => s
    | some j => s.take j ++ new ++ Replace (s.drop (j + old.length)) old new n

/-- The local `newPath` of `handleRequest` (main.go, lines 45-46). -/
def newPath (path : Str) : Str :=
  Replace (Replace path (lit "/release") [] 1) (lit "/test") [] 1

/-- Go `asciiSpace` table of package `strings`: tab, newline, vertical tab,
form feed, carriage return and space. -/
def asciiSpace (c : Nat) : Bool :=
  c = 9 || c = 10 || c = 11 || c = 12 || c = 13 || c = 32

/-! ## Header maps (`http.Header`, a `map[string][]string`) -/

/-- Go `validHeaderFieldByte` of `net/textproto`: the token characters of
RFC 7230, that is the ASCII letters and digits and the marks
``!#$%&'*+-.^_`|~``. -/
def validHeaderFieldByte (c : Nat) : Bool :=
  (48 ≤ c && c ≤ 57) || (65 ≤ c && c ≤ 90) || (97 ≤ c && c ≤ 122) ||
  c = 33 || c = 35 || c = 36 || c = 37 || c = 38 || c = 39 || c = 42 || c = 43 ||
  c = 45 || c = 46 || c = 94 || c = 95 || c = 96 || c = 124 || c = 126

/-- The rewriting loop of Go `canonicalMIMEHeaderKey`: the first letter and
every letter after a hyphen become upper case, every other letter lower
case.  `upper` says whether the next byte starts a word. -/
def canonicalize : Bool → Str → Str
  | _, [] => []
  | upper, c :: a =>
    let c1 :=
      if upper && (97 ≤ c && c ≤ 122) then c - 32
      else if !upper && (65 ≤ c && c ≤ 90) then c + 32
      else c
    c1 :: canonicalize (c1 = 45) a

/-- Go `textproto.CanonicalMIMEHeaderKey`: a key holding a byte that is not a
token character is returned unchanged, every other key is canonicalized. -/
def CanonicalMIMEHeaderKey (s : Str) : Str :=
  if s.all validHeaderFieldByte then canonicalize true s else s

/-- ASCII lower-casing of one byte. -/
def lowerByte (c : Nat) : Nat := if 65 ≤ c && c ≤ 90 then c + 32 else c

/-- Case-insensitive equality of two header names (ASCII case folding). -/
def EqualFold (a b : Str) : Bool := a.map lowerByte = b.map lowerByte

/-- Go `http.Header`: the entries of the map, one per key.  The order of the
list is the order in which a `range` loop visits the entries. -/
abbrev Header := List (Str × List Str)

namespace Header

/-- The keys of the map. -/
def keys (h : Header) : List Str := h.map Prod.fst

/-- Go `h[key]`: the values stored under the exact key, the empty slice when
the key is absent. -/
def values (h : Header) (key : Str) : List Str := (h.lookup key).getD []

/-- Go `append(h[key], value)` stored back under the exact key `key`. -/
def appendValue : Header → Str → Str → Header
  | [], key, value => [(key, [value])]
  | (k, vs) :: h, key, value =>
    if k = key then (k, vs ++ [value]) :: h else (k, vs) :: appendValue h key value

/-- Go `h[key] = []string{value}` under the exact key `key`. -/
def assign : Header → Str → Str → Header
  | [], key, value => [(key, [value])]
  | (k, vs) :: h, key, value =>
    if k = key then (k, [value]) :: h else (k, vs) :: assign h key value

/-- Go `Header.Get`: the first value under the canonical form of `key`, or
the empty string. -/
def Get (h : Header) (key : Str) : Str :=
  match values h (CanonicalMIMEHeaderKey key) with
  | [] => []
  | v :: _ => v

/-- Go `Header.Del`: deletes the entry under the canonical form of `key`. -/
def Del (h : Header) (key : Str) : Header :=
  h.filter (fun e => decide (e.1 ≠ CanonicalMIMEHeaderKey key))

/-- Go `Header.Add`: appends `value` under the canonical form of `key`. -/
def Add (h : Header) (key value : Str) : Header :=
  appendValue h (CanonicalMIMEHeaderKey key) value

/-- Go `Header.Set`: the entry under the canonical form of `key` becomes the
single value `value`. -/
def Set (h : Header) (key value : Str) : Header :=
  assign h (CanonicalMIMEHeaderKey key) value

end Header

/-- The two nested `range` loops of `handleRequest` that copy a header map
(main.go, lines 80-84 and 123-127): every value of every entry of `src` is
added to `dst` with `Header.Add`. -/
def copyHeader (src dst : Header) : Header :=
  src.foldl (fun d e => e.2.foldl (fun d1 v => Header.Add d1 e.1 v) d) dst

/-! ## Requests, responses and the environment -/

/-- The fields of `url.URL` the handler reads. -/
structure URL where
  Path : Str
  RawQuery : Str
deriving DecidableEq

/-- The inbound `*http.Request`. -/
structure Request where
  Method : Str
  URL : URL
  Header : Header
  Body : Str

/-- The request made by `http.NewRequest` and passed to `client.Do`. -/
structure ProxyRequest where
  Method : Str
  URL : Str
  Header : Header
  Body : Str
deriving DecidableEq

/-- The error value of one `Read` of the upstream body. -/
inductive ReadError where
  | EOF
  | other (text : Str)
deriving DecidableEq

/-- The result of one `resp.Body.Read(buf)`: `data` is `buf[:n]`, `err` the
returned error (`none` for nil). -/
structure ReadResult where
  data : Str
  err : Option ReadError
deriving DecidableEq

/-- The upstream `*http.Response`; `Body` lists the results of the successive
reads of its body. -/
structure Response where
  StatusCode : Nat
  Header : Header
  Body : List ReadResult

/-- What the handler does not compute itself. -/
structure World where
  /-- `r.URL.String()` -/
  urlString : URL → Str
  /-- the error of `url.Parse`, `none` for nil -/
  urlParse : Str → Option Str
  /-- the error of `http.NewRequest(method, url, body)`, `none` for nil -/
  newRequest : Str → Str → Option Str
  /-- `os.Getenv` -/
  getenv : Str → Str
  /-- the result of running `gcloud auth application-default print-access-token` -/
  cmdOutput : Except Str Str
  /-- `strings.TrimFunc(s, unicode.IsSpace)`, the slow path of `TrimSpace` -/
  trimFuncSpace : Str → Str
  /-- `strings.TrimRightFunc(s, unicode.IsSpace)`, the slow path of `TrimSpace` -/
  trimRightFuncSpace : Str → Str
  /-- `client.Do` -/
  clientDo : ProxyRequest → Except Str Response
  /-- the error of the `i`-th call of `w.Write` (counted from 0), `none` for nil -/
  writeErr : Nat → Option Str
  /-- whether `w` implements `http.Flusher` -/
  isFlusher : Bool

/-- The second loop of Go `strings.TrimSpace`, on the reversed rest of the
string: trailing ASCII space is dropped; a non-ASCII byte hands over to
`TrimRightFunc`. -/
def trimSpaceStop (W : World) : Str → Str
  | [] => []
  | c :: rest =>
    if 128 ≤ c then W.trimRightFuncSpace (c :: rest).reverse
    else if asciiSpace c then trimSpaceStop W rest
    else (c :: rest).reverse

/-- Go `strings.TrimSpace`: leading ASCII space is dropped, then trailing
ASCII space; a non-ASCII byte hands over to `TrimFunc`. -/
def TrimSpace (W : World) : Str → Str
  | [] => []
  | c :: s =>
    if 128 ≤ c then W.trimFuncSpace (c :: s)
    else if asciiSpace c then TrimSpace W s
    else trimSpaceStop W (c :: s).reverse

/-- The function `getVertexAuthToken` of token.go. -/
def getVertexAuthToken (W : World) : Except Str Str :=
  match W.cmdOutput with
  | .error err => .error (lit "failed to get access token: " ++ err)
  | .ok output => .ok (TrimSpace W output)

/-! ## The response writer -/

/-- The `http.ResponseWriter` as the handler drives it: the header map,
the status passed to `WriteHeader`, the bytes passed to `Write` in order,
the number of `Write` calls and the number of `Flush` calls. -/
structure ResponseWriter where
  Header : Header := []
  Status : Option Nat := none
  Body : Str := []
  writes : Nat := 0
  flushes : Nat := 0
deriving DecidableEq

namespace ResponseWriter

/-- Go `w.WriteHeader(code)`; a second call is ignored. -/
def WriteHeader (w : ResponseWriter) (code : Nat) : ResponseWriter :=
  match w.Status with
  | none => { w with Status := some code }
  | some _ => w

/-- Go `w.Write(b)`; the status is 200 when `WriteHeader` was not called. -/
def Write (w : ResponseWriter) (b : Str) : ResponseWriter :=
  let w1 := WriteHeader w 200
  { w1 with Body := w1.Body ++ b, writes := w1.writes + 1 }

/-- Go `flusher.Flush()`. -/
def Flush (w : ResponseWriter) : ResponseWriter :=
  { w with flushes := w.flushes + 1 }

end ResponseWriter

/-- Go `http.Error(w, error, code)`. -/
def httpError (w : ResponseWriter) (error : Str) (code : Nat) : ResponseWriter :=
  let h := Header.Del w.Header (lit "Content-Length")
  let h := Header.Set h (lit "Content-Type") (lit "text/plain; charset=utf-8")
  let h := Header.Set h (lit "X-Content-Type-Options") (lit "nosniff")
  ({ w with Header := h }.WriteHeader code).Write (error ++ [10])

/-- Go `http.StatusText(http.StatusInternalServerError)`. -/
def statusText500 : Str := lit "Internal Server Error"

/-! ## The handler -/

/-- Everything one run of `handleRequest` does. -/
structure Outcome where
  /-- the response writer -/
  w : ResponseWriter := {}
  /-- how often `getVertexAuthToken` was called -/
  tokenCalls : Nat := 0
  /-- the requests passed to `client.Do` -/
  sent : List ProxyRequest := []
  /-- how often `resp.Body.Read` was called -/
  reads : Nat := 0
  /-- whether `resp.Body.Close` ran -/
  closed : Bool := false
  /-- the operands of the `log.Println` calls -/
  logged : List (Str × Str) := []
  /-- the output of `fmt.Printf` -/
  printed : List Str := []
  /-- whether the handler returned -/
  returned : Bool := false
deriving DecidableEq

/-- The local `targetURL` of `handleRequest` (main.go, lines 51-59). -/
def targetURL (target : Str) (r : Request) : Str :=
  let targetURL :=
    if Header.Get r.Header (lit "X-Target-Host") ≠ [] then
      lit "https://" ++ Header.Get r.Header (lit "X-Target-Host") ++ newPath r.URL.Path
    else
      target ++ newPath r.URL.Path
  if r.URL.RawQuery ≠ [] then targetURL ++ (lit "?" ++ r.URL.RawQuery) else targetURL

/-- The relay loop of `handleRequest` (main.go, lines 134-158) over the
results of the successive reads of the upstream body.  When the list ends
before a read returned an error the loop is still waiting in `Read`. -/
def relay (W : World) : List ReadResult → Outcome → Outcome
  | [], o => o
  | rd :: rest, o =>
    let o1 := { o with reads := o.reads + 1 }
    if 0 < rd.data.length then
      let o2 := { o1 with w := o1.w.Write rd.data }
      match W.writeErr o1.w.writes with
      | some writeErr =>
        { o2 with logged := o2.logged ++ [(lit "Error writing response:", writeErr)],
                  returned := true }
      | none =>
        let o3 := if W.isFlusher then { o2 with w := o2.w.Flush } else o2
        match rd.err with
        | some .EOF => { o3 with returned := true }
        | some (.other text) =>
          { o3 with logged := o3.logged ++ [(lit "Error reading response body:", text)],
                    returned := true }
        | none => relay W rest o3
    else
      match rd.err with
      | some .EOF => { o1 with returned := true }
      | some (.other text) =>
        { o1 with logged := o1.logged ++ [(lit "Error reading response body:", text)],
                  returned := true }
      | none => relay W rest o1

/-- The part of `handleRequest` from `client.Do` on (main.go, lines 114-158). -/
def forward (W : World) (o : Outcome) (proxyReq : ProxyRequest) : Outcome :=
  let o1 := { o with sent := o.sent ++ [proxyReq] }
  match W.clientDo proxyReq with
  | .error err =>
    { o1 with logged := o1.logged ++ [(lit "Error sending proxy request: ", err)],
              w := httpError o1.w err 500,
              returned := true }
  | .ok resp =>
    let w1 := { o1.w with Header := copyHeader resp.Header o1.w.Header }
    let o2 := relay W resp.Body { o1 with w := w1.WriteHeader resp.StatusCode }
    { o2 with closed := true }

/-- The function `handleRequest` of main.go, for the configured `target`. -/
def handleRequest (W : World) (target : Str) (r : Request) : Outcome :=
  let o : Outcome := {}
  match W.urlParse (W.urlString r.URL) with
  | some err =>
    { o with logged := o.logged ++ [(lit "Error parsing URL: ", err)],
             w := httpError o.w statusText500 500,
             returned := true }
  | none =>
    let targetURL := targetURL target r
    let o1 :=
      if W.getenv (lit "ENV") = lit "local" then
        { o with printed := o.printed ++ [lit "Proxying request to: " ++ targetURL ++ [10]] }
      else o
    match W.newRequest r.Method targetURL with
    | some err =>
      { o1 with logged := o1.logged ++ [(lit "Error creating proxy request: ", err)],
                w := httpError o1.w (lit "Error creating proxy request") 500,
                returned := true }
    | none =>
      let proxyReq : ProxyRequest :=
        { Method := r.Method, URL := targetURL, Header := [], Body := r.Body }
      let rHeader :=
        Header.Del (Header.Del (Header.Del r.Header (lit "X-Forwarded-For")) (lit "X-Real-IP"))
          (lit "Client-IP")
      let proxyReq1 := { proxyReq with Header := copyHeader rHeader proxyReq.Header }
      if Contains targetURL (lit "aiplatform.googleapis.com") then
        let o2 := { o1 with tokenCalls := o1.tokenCalls + 1 }
        match getVertexAuthToken W with
        | .error err =>
          { o2 with logged := o2.logged ++ [(lit "Error getting vertex auth token: ", err)],
                    w := httpError o2.w (lit "Error getting vertex auth token") 500,
                    returned := true }
        | .ok token =>
          forward W o2
            { proxyReq1 with
              Header := Header.Set proxyReq1.Header (lit "Authorization") (lit "Bearer " ++ token) }
      else
        forward W o1 proxyReq1

/-! ## Specification-level notions -/

/-- Following the specification's words: `r` is `s` with the leftmost
occurrence of `old` deleted, and `s` itself when `old` does not occur in `s`. -/
def DeletesLeftmost (old s r : Str) : Prop :=
  (¬ old <:+: s ∧ r = s) ∨
  (∃ a b, s = a ++ old ++ b ∧ r = a ++ b ∧
    ∀ a1 b1, s = a1 ++ old ++ b1 → a.length ≤ a1.length)

/-- The values that copying `src` adds under the key `k`: those of every
entry of `src` whose canonical key is `k`, in the order of the entries. -/
def copied (src : Header) (k : Str) : List Str :=
  (src.filter (fun e => decide (CanonicalMIMEHeaderKey e.1 = k))).flatMap Prod.snd

/-- A header map whose keys are all in canonical form, as the HTTP server
builds it. -/
def CanonicalKeys (h : Header) : Prop :=
  ∀ k ∈ Header.keys h, CanonicalMIMEHeaderKey k = k

/-- The inbound header map after the three `Del` calls of `handleRequest`
(main.go, lines 75-77). -/
def strippedHeader (h : Header) : Header :=
  Header.Del (Header.Del (Header.Del h (lit "X-Forwarded-For")) (lit "X-Real-IP"))
    (lit "Client-IP")

/-- The `"?" + r.URL.RawQuery` that `handleRequest` appends for a non-empty
raw query (main.go, lines 57-59). -/
def querySuffix (q : Str) : Str := if q ≠ [] then lit "?" ++ q else []

/-- The default of the `-domain` flag (main.go, line 23). -/
def defaultTarget : Str := lit "https://api.openai.com"

/-- Following the specification's words: `s` with its leading and its
trailing white space removed, for the ASCII white space of `asciiSpace`. -/
def trimmed (s : Str) : Str :=
  ((s.dropWhile asciiSpace).reverse.dropWhile asciiSpace).reverse

/-! ## Sample environments and requests -/

/-- An environment in which every URL parses, every request can be built,
`gcloud` prints a token followed by a newline, and the upstream answers 200
with a JSON body in one read followed by the end of the stream. -/
def sampleWorld : World where
  urlString := fun u => u.Path ++ querySuffix u.RawQuery
  urlParse := fun _ => none
  newRequest := fun _ _ => none
  getenv := fun _ => []
  cmdOutput := .ok (lit "ya29.token\n")
  trimFuncSpace := fun s => s
  trimRightFuncSpace := fun s => s
  clientDo := fun _ =>
    .ok { StatusCode := 200
          Header := [(lit "Content-Type", [lit "application/json"])]
          Body := [⟨lit "\x7b\"data\":[]\x7d", none⟩, ⟨[], some .EOF⟩] }
  writeErr := fun _ => none
  isFlusher := true

/-- A `GET` request for the given path and raw query with the given headers
and no body. -/
def sampleRequest (path query : String) (h : Header) : Request :=
  { Method := lit "GET", URL := ⟨lit path, lit query⟩, Header := h, Body := [] }

/-- An inbound header map with client-identifying entries, two Cookie lines
and two Authorization values. -/
def sampleHeader : Header :=
  [(lit "X-Forwarded-For", [lit "1.2.3.4"]),
   (lit "X-Real-Ip", [lit "1.2.3.4"]),
   (lit "Cookie", [lit "a=1", lit "b=2"]),
   (lit "Authorization", [lit "Bearer sk-1", lit "Bearer sk-2"])]

/-- What `http.Error` leaves on a fresh response writer: the two headers it
sets, the status, and the message followed by a newline. -/
def errorResponse (message : Str) (code : Nat) : ResponseWriter :=
  { Header := [(lit "Content-Type", [lit "text/plain; charset=utf-8"]),
               (lit "X-Content-Type-Options", [lit "nosniff"])]
    Status := some code
    Body := message ++ [10]
    writes := 1
    flushes := 0 }

/-- An environment in which `http.NewRequest` fails. -/
def buildFailWorld : World :=
  { sampleWorld with newRequest := fun _ _ => some (lit "invalid URL escape") }

/-- An environment in which `gcloud` fails. -/
def tokenFailWorld : World :=
  { sampleWorld with cmdOutput := .error (lit "exit status 1") }

/-- An environment in which the upstream call fails. -/
def upstreamFailWorld : World :=
  { sampleWorld with clientDo := fun _ => .error (lit "dial tcp: connection refused") }

/-- An environment whose upstream body yields three bytes, then nothing,
then two bytes together with a read error, and would yield more after it. -/
def brokenBodyWorld : World :=
  { sampleWorld with
    clientDo := fun _ =>
      .ok { StatusCode := 200, Header := [],
            Body := [⟨lit "abc", none⟩, ⟨[], none⟩,
                     ⟨lit "de", some (.other (lit "unexpected EOF"))⟩,
                     ⟨lit "zz", none⟩] } }

/-! ## Facts about the string functions -/

theorem lit_release : lit "/release" = [47, 114, 101, 108, 101, 97, 115, 101] := by decide

theorem lit_test : lit "/test" = [47, 116, 101, 115, 116] := by decide

theorem HasPrefix_iff (s p : Str) : HasPrefix s p = true ↔ p <+: s := by
  simp [HasPrefix]

theorem Index_some_spec (sub : Str) :
    ∀ (s : Str) (j : Nat), Index s sub = some j →
      s = s.take j ++ sub ++ s.drop (j + sub.length) ∧
      ∀ a b, s = a ++ sub ++ b → j ≤ a.length := by
  intro s
  induction s with
  | nil =>
    intro j h
    simp only [Index] at h
    split at h
    · next hs => cases h; subst hs; simp
    · cases h
  | cons c s ih =>
    intro j h
    simp only [Index] at h
    split at h
    · next hp =>
      cases h
      obtain ⟨t, ht⟩ := (HasPrefix_iff _ _).1 hp
      refine ⟨?_, fun _ _ _ => Nat.zero_le _⟩
      rw [← ht]; simp
    · next hp =>
      cases hi : Index s sub with
      | none => simp [hi] at h
      | some j1 =>
        simp [hi] at h
        subst h
        obtain ⟨h1, h2⟩ := ih j1 hi
        refine ⟨?_, ?_⟩
        · have : j1 + 1 + sub.length = (j1 + sub.length) + 1 := by omega
          rw [this]
          simp only [List.take_succ_cons, List.drop_succ_cons, List.cons_append]
          rw [← h1]
        · intro a b hab
          cases a with
          | nil =>
            exfalso
            apply hp
            rw [HasPrefix_iff]
            exact ⟨b, by simpa using hab.symm⟩
          | cons x a1 =>
            simp only [List.cons_append, List.cons.injEq] at hab
            have := h2 a1 b hab.2
            simp only [List.length_cons]
            omega

theorem Index_none_iff (sub : Str) : ∀ s : Str, Index s sub = none ↔ ¬ sub <:+: s := by
  intro s
  induction s with
  | nil =>
    simp only [Index]
    split
    · next hs => subst hs; simp
    · next hs => simp [hs]
  | cons c s ih =>
    simp only [Index]
    split
    · next hp =>
      simp only [reduceCtorEq, false_iff, not_not]
      exact ((HasPrefix_iff _ _).1 hp).isInfix
    · next hp =>
      rw [Option.map_eq_none', ih, List.infix_cons_iff]
      have : ¬ sub <+: c :: s := fun h => hp ((HasPrefix_iff _ _).2 h)
      tauto

theorem Contains_iff (s sub : Str) : Contains s sub = true ↔ sub <:+: s := by
  unfold Contains
  cases h : Index s sub with
  | none => simpa using (Index_none_iff sub s).1 h
  | some j =>
    simp only [Option.isSome_some, true_iff]
    have := (Index_some_spec sub s j h).1
    exact ⟨s.take j, s.drop (j + sub.length), this.symm⟩

theorem Contains_false_iff (s sub : Str) : Contains s sub = false ↔ ¬ sub <:+: s := by
  rw [← Contains_iff]; simp

theorem Replace_one_of_none (s old new : Str) (h : Index s old = none) :
    Replace s old new 1 = s := by
  simp [Replace, h]

theorem Replace_one_of_some (s old new : Str) (j : Nat) (h : Index s old = some j) :
    Replace s old new 1 = s.take j ++ new ++ s.drop (j + old.length) := by
  simp [Replace, h]

theorem Replace_one_deletesLeftmost (old s : Str) :
    DeletesLeftmost old s (Replace s old [] 1) := by
  cases h : Index s old with
  | none =>
    left
    exact ⟨(Index_none_iff old s).1 h, Replace_one_of_none s old [] h⟩
  | some j =>
    right
    obtain ⟨h1, h2⟩ := Index_some_spec old s j h
    refine ⟨s.take j, s.drop (j + old.length), h1, ?_, ?_⟩
    · rw [Replace_one_of_some s old [] j h]; simp
    · intro a1 b1 hab
      have hj := h2 a1 b1 hab
      have : (s.take j).length ≤ j := by simp
      omega

theorem DeletesLeftmost_unique (old s r1 r2 : Str)
    (h1 : DeletesLeftmost old s r1) (h2 : DeletesLeftmost old s r2) : r1 = r2 := by
  rcases h1 with ⟨hn1, e1⟩ | ⟨a, b, hs, hr, hmin⟩
  · rcases h2 with ⟨_, e2⟩ | ⟨a2, b2, hs2, _, _⟩
    · rw [e1, e2]
    · exact absurd ⟨a2, b2, hs2.symm⟩ hn1
  · rcases h2 with ⟨hn2, _⟩ | ⟨a2, b2, hs2, hr2, hmin2⟩
    · exact absurd ⟨a, b, hs.symm⟩ hn2
    · have hl : a.length = a2.length :=
        Nat.le_antisymm (hmin a2 b2 hs2) (hmin2 a b hs)
      have heq : a ++ (old ++ b) = a2 ++ (old ++ b2) := by
        rw [← List.append_assoc, ← List.append_assoc, ← hs, ← hs2]
      obtain ⟨ha, hb⟩ := List.append_inj heq hl
      have hb2 : b = b2 := List.append_cancel_left hb
      rw [hr, hr2, ha, hb2]

theorem length_Replace_one_le (s old : Str) : (Replace s old [] 1).length ≤ s.length := by
  cases h : Index s old with
  | none => rw [Replace_one_of_none s old [] h]
  | some j =>
    rw [Replace_one_of_some s old [] j h]
    simp only [List.append_nil, List.length_append, List.length_take, List.length_drop]
    omega

theorem length_Replace_one_lt (s old : Str) (hold : old ≠ [])
    (h : Contains s old = true) : (Replace s old [] 1).length < s.length := by
  unfold Contains at h
  cases hi : Index s old with
  | none => simp [hi] at h
  | some j =>
    rw [Replace_one_of_some s old [] j hi]
    have hs := (Index_some_spec old s j hi).1
    have hlen := congrArg List.length hs
    simp only [List.length_append, List.length_take, List.length_drop] at hlen
    simp only [List.append_nil, List.length_append, List.length_take, List.length_drop]
    have : 0 < old.length := List.length_pos.2 hold
    omega

theorem Replace_one_of_not_contains (s old new : Str) (h : Contains s old = false) :
    Replace s old new 1 = s := by
  unfold Contains at h
  cases hi : Index s old with
  | none => exact Replace_one_of_none s old new hi
  | some j => simp [hi] at h

/-! ## Path normalization (C5, C6, C7) -/

/-- Claim C5: the normalized path is exactly the path obtained by deleting the
leftmost occurrence of "/release" (none: unchanged) and then the leftmost
occurrence of "/test" of the result (none: unchanged), wherever they lie; so
"/api/test/x" gives "/api/x" and "/release/v1/chat" gives "/v1/chat". -/
theorem C5_newPath_is_leftmost_deletion :
    (∀ p q : Str, q = newPath p ↔
      ∃ p1, DeletesLeftmost (lit "/release") p p1 ∧ DeletesLeftmost (lit "/test") p1 q) ∧
    newPath (lit "/api/test/x") = lit "/api/x" ∧
    newPath (lit "/release/v1/chat") = lit "/v1/chat" := by
  refine ⟨fun p q => ⟨?_, ?_⟩, by decide, by decide⟩
  · intro h
    subst h
    exact ⟨Replace p (lit "/release") [] 1, Replace_one_deletesLeftmost _ _,
      Replace_one_deletesLeftmost _ _⟩
  · rintro ⟨p1, h1, h2⟩
    have e1 : p1 = Replace p (lit "/release") [] 1 :=
      DeletesLeftmost_unique _ _ _ _ h1 (Replace_one_deletesLeftmost _ _)
    subst e1
    exact DeletesLeftmost_unique _ _ _ _ h2 (Replace_one_deletesLeftmost _ _)

/-- Claim C6, as stated, fails: "/test/release/v1" does not start with
"/release", yet the "/release" step changes it, and the normalized path is
"/v1", not "/release/v1". -/
theorem C6_counterexample :
    HasPrefix (lit "/test/release/v1") (lit "/release") = false ∧
    Replace (lit "/test/release/v1") (lit "/release") [] 1 ≠ lit "/test/release/v1" ∧
    newPath (lit "/test/release/v1") = lit "/v1" ∧
    newPath (lit "/test/release/v1") ≠ lit "/release/v1" := by
  decide

/-- Claim C6, amended: the "/release" step leaves unchanged every path that
does not contain "/release" anywhere, so only the leftmost "/test" is then
removed; and the path "/test/release/v1" normalizes to "/v1". -/
theorem C6_release_step_unchanged_without_occurrence (p : Str)
    (h : Contains p (lit "/release") = false) :
    Replace p (lit "/release") [] 1 = p ∧
    DeletesLeftmost (lit "/test") p (newPath p) ∧
    newPath (lit "/test/release/v1") = lit "/v1" := by
  have h1 := Replace_one_of_not_contains p (lit "/release") [] h
  refine ⟨h1, ?_, by decide⟩
  unfold newPath
  rw [h1]
  exact Replace_one_deletesLeftmost _ _

theorem C6_release_step_unchanged_without_occurrence_witness :
    Contains (lit "/test/v1") (lit "/release") = false ∧
    (Replace (lit "/test/v1") (lit "/release") [] 1 = lit "/test/v1" ∧
      DeletesLeftmost (lit "/test") (lit "/test/v1") (newPath (lit "/test/v1")) ∧
      newPath (lit "/test/release/v1") = lit "/v1") :=
  ⟨by decide, C6_release_step_unchanged_without_occurrence (lit "/test/v1") (by decide)⟩

/-- Claim C7, as stated, fails: normalizing "/release/release" gives
"/release", and normalizing that again gives the empty path. -/
theorem C7_counterexample :
    newPath (lit "/release/release") = lit "/release" ∧
    newPath (newPath (lit "/release/release")) = [] ∧
    newPath (newPath (lit "/release/release")) ≠ newPath (lit "/release/release") := by
  decide

/-- Claim C7, amended: normalizing a second time changes nothing exactly when
the normalized path contains neither "/release" nor "/test". -/
theorem C7_newPath_idempotent_iff (p : Str) :
    newPath (newPath p) = newPath p ↔
      (Contains (newPath p) (lit "/release") = false ∧
       Contains (newPath p) (lit "/test") = false) := by
  generalize newPath p = q
  constructor
  · intro h
    have hlen := congrArg List.length h
    unfold newPath at hlen
    have h2 := length_Replace_one_le (Replace q (lit "/release") [] 1) (lit "/test")
    have h1 := length_Replace_one_le q (lit "/release")
    have hr : Contains q (lit "/release") = false := by
      by_contra hc
      have hc1 : Contains q (lit "/release") = true := by simpa using hc
      have := length_Replace_one_lt q (lit "/release") (by decide) hc1
      omega
    refine ⟨hr, ?_⟩
    by_contra hc
    have hc1 : Contains q (lit "/test") = true := by simpa using hc
    rw [Replace_one_of_not_contains q (lit "/release") [] hr] at hlen
    have := length_Replace_one_lt q (lit "/test") (by decide) hc1
    omega
  · rintro ⟨hr, ht⟩
    unfold newPath
    rw [Replace_one_of_not_contains q _ [] hr, Replace_one_of_not_contains q _ [] ht]

/-! ## What the relay and the upstream call leave alone -/

theorem relay_frame (W : World) :
    ∀ (l : List ReadResult) (o : Outcome),
      (relay W l o).sent = o.sent ∧ (relay W l o).tokenCalls = o.tokenCalls := by
  intro l
  induction l with
  | nil => intro o; simp [relay]
  | cons rd rest ih =>
    intro o
    simp only [relay]
    split
    · split
      · simp
      · split
        · split <;> simp
        · split <;> simp
        · rw [(ih _).1, (ih _).2]; split <;> simp
    · split
      · simp
      · simp
      · rw [(ih _).1, (ih _).2]; simp

theorem forward_sent (W : World) (o : Outcome) (q : ProxyRequest) :
    (forward W o q).sent = o.sent ++ [q] := by
  unfold forward
  split
  · rfl
  · simp [(relay_frame W _ _).1]

theorem forward_tokenCalls (W : World) (o : Outcome) (q : ProxyRequest) :
    (forward W o q).tokenCalls = o.tokenCalls := by
  unfold forward
  split
  · rfl
  · simp [(relay_frame W _ _).2]

/-! ## Canonical header keys -/

theorem valid_lowerByte (c : Nat) :
    validHeaderFieldByte (lowerByte c) = validHeaderFieldByte c := by
  rw [Bool.eq_iff_iff]
  unfold validHeaderFieldByte lowerByte
  split
  · next h =>
    simp only [Bool.and_eq_true, decide_eq_true_eq] at h
    simp only [Bool.or_eq_true, Bool.and_eq_true, decide_eq_true_eq]
    constructor <;> intro _ <;> omega
  · rfl

theorem canonicalize_step_lower (u : Bool) (c : Nat) :
    (if u && (97 ≤ lowerByte c && lowerByte c ≤ 122) then lowerByte c - 32
      else if !u && (65 ≤ lowerByte c && lowerByte c ≤ 90) then lowerByte c + 32
      else lowerByte c) =
    (if u && (97 ≤ c && c ≤ 122) then c - 32
      else if !u && (65 ≤ c && c ≤ 90) then c + 32
      else c) := by
  unfold lowerByte
  cases u <;> simp <;> split_ifs <;> omega

theorem canonicalize_map_lower (a : Str) :
    ∀ u : Bool, canonicalize u (a.map lowerByte) = canonicalize u a := by
  induction a with
  | nil => intro u; rfl
  | cons c a ih =>
    intro u
    simp only [List.map_cons, canonicalize]
    rw [canonicalize_step_lower, ih]

theorem map_lower_canonicalize (a : Str) :
    ∀ u : Bool, (canonicalize u a).map lowerByte = a.map lowerByte := by
  induction a with
  | nil => intro u; rfl
  | cons c a ih =>
    intro u
    simp only [List.map_cons, canonicalize, ih, List.cons.injEq, and_true]
    unfold lowerByte
    cases u <;> simp <;> split_ifs <;> omega

theorem all_valid_map_lower (a : Str) :
    (a.map lowerByte).all validHeaderFieldByte = a.all validHeaderFieldByte := by
  induction a with
  | nil => rfl
  | cons c a ih => simp only [List.map_cons, List.all_cons, valid_lowerByte, ih]

theorem map_lower_CanonicalMIMEHeaderKey (a : Str) :
    (CanonicalMIMEHeaderKey a).map lowerByte = a.map lowerByte := by
  unfold CanonicalMIMEHeaderKey
  split
  · exact map_lower_canonicalize a true
  · rfl

/-- Two names that differ only in the case of their letters have the same
canonical form, provided one of them consists of token characters. -/
theorem CanonicalMIMEHeaderKey_eq_of_EqualFold (x n : Str)
    (hn : n.all validHeaderFieldByte = true) (h : EqualFold x n = true) :
    CanonicalMIMEHeaderKey x = CanonicalMIMEHeaderKey n := by
  have h1 : x.map lowerByte = n.map lowerByte := by simpa [EqualFold] using h
  have hx : x.all validHeaderFieldByte = true := by
    rw [← all_valid_map_lower, h1, all_valid_map_lower]; exact hn
  unfold CanonicalMIMEHeaderKey
  rw [if_pos hx, if_pos hn, ← canonicalize_map_lower x, h1, canonicalize_map_lower]

/-! ## Header maps -/

namespace Header

theorem values_nil (k : Str) : values [] k = [] := rfl

theorem values_cons (k1 : Str) (vs : List Str) (h : Header) (k : Str) :
    values ((k1, vs) :: h) k = if k = k1 then vs else values h k := by
  unfold values
  rw [List.lookup_cons]
  by_cases hk : k = k1
  · subst hk; simp
  · have : (k == k1) = false := by simpa using hk
    simp [this, hk]

theorem keys_cons (e : Str × List Str) (h : Header) : keys (e :: h) = e.1 :: keys h := rfl

theorem values_eq_nil_of_not_mem (h : Header) (k : Str) (hk : k ∉ keys h) :
    values h k = [] := by
  induction h with
  | nil => rfl
  | cons e h ih =>
    obtain ⟨k1, vs⟩ := e
    simp only [keys_cons, List.mem_cons, not_or] at hk
    rw [values_cons, if_neg hk.1, ih hk.2]

theorem mem_keys_appendValue (h : Header) (key v k : Str) :
    k ∈ keys (appendValue h key v) ↔ k = key ∨ k ∈ keys h := by
  induction h with
  | nil => simp [appendValue, keys]
  | cons e h ih =>
    obtain ⟨k1, vs⟩ := e
    simp only [appendValue]
    split
    · next hk => subst hk; simp [keys]
    · simp only [keys_cons, List.mem_cons, ih]; tauto

theorem values_appendValue (h : Header) (key v k : Str) :
    values (appendValue h key v) k =
      if k = key then values h k ++ [v] else values h k := by
  induction h with
  | nil =>
    simp only [appendValue, values_cons, values_nil]
    split <;> simp
  | cons e h ih =>
    obtain ⟨k1, vs⟩ := e
    simp only [appendValue]
    split
    · next hk =>
      subst hk
      simp only [values_cons]
      split <;> simp
    · next hk =>
      simp only [values_cons, ih]
      by_cases h1 : k = k1
      · have : k ≠ key := fun h2 => hk (h1.symm.trans h2)
        simp [h1, hk]
      · simp [h1]

theorem nodup_keys_appendValue (h : Header) (key v : Str) (hn : (keys h).Nodup) :
    (keys (appendValue h key v)).Nodup := by
  induction h with
  | nil => simp [appendValue, keys]
  | cons e h ih =>
    obtain ⟨k1, vs⟩ := e
    simp only [keys_cons, List.nodup_cons] at hn
    simp only [appendValue]
    split
    · simpa [keys_cons, List.nodup_cons] using hn
    · next hk =>
      simp only [keys_cons, List.nodup_cons, mem_keys_appendValue]
      exact ⟨fun h1 => h1.elim hk hn.1, ih hn.2⟩

theorem mem_keys_assign (h : Header) (key v k : Str) :
    k ∈ keys (assign h key v) ↔ k = key ∨ k ∈ keys h := by
  induction h with
  | nil => simp [assign, keys]
  | cons e h ih =>
    obtain ⟨k1, vs⟩ := e
    simp only [assign]
    split
    · next hk => subst hk; simp [keys]
    · simp only [keys_cons, List.mem_cons, ih]; tauto

theorem values_assign (h : Header) (key v k : Str) :
    values (assign h key v) k = if k = key then [v] else values h k := by
  induction h with
  | nil =>
    simp only [assign, values_cons, values_nil]
  | cons e h ih =>
    obtain ⟨k1, vs⟩ := e
    simp only [assign]
    split
    · next hk =>
      subst hk
      simp only [values_cons]
      split <;> simp
    · next hk =>
      simp only [values_cons, ih]
      by_cases h1 : k = k1
      · have : k ≠ key := fun h2 => hk (h1.symm.trans h2)
        simp [h1, hk]
      · simp [h1]

theorem nodup_keys_assign (h : Header) (key v : Str) (hn : (keys h).Nodup) :
    (keys (assign h key v)).Nodup := by
  induction h with
  | nil => simp [assign, keys]
  | cons e h ih =>
    obtain ⟨k1, vs⟩ := e
    simp only [keys_cons, List.nodup_cons] at hn
    simp only [assign]
    split
    · simpa [keys_cons, List.nodup_cons] using hn
    · next hk =>
      simp only [keys_cons, List.nodup_cons, mem_keys_assign]
      exact ⟨fun h1 => h1.elim hk hn.1, ih hn.2⟩

theorem mem_keys_Del (h : Header) (name k : Str) :
    k ∈ keys (Del h name) ↔ k ∈ keys h ∧ k ≠ CanonicalMIMEHeaderKey name := by
  induction h with
  | nil => simp [Del, keys]
  | cons e h ih =>
    obtain ⟨k1, vs⟩ := e
    have ih1 : k ∈ keys (List.filter (fun e => decide (e.1 ≠ CanonicalMIMEHeaderKey name)) h) ↔
        k ∈ keys h ∧ k ≠ CanonicalMIMEHeaderKey name := ih
    simp only [Del, List.filter_cons]
    split
    · next hk =>
      have hk1 : k1 ≠ CanonicalMIMEHeaderKey name := by simpa using hk
      simp only [keys_cons, List.mem_cons, ih1]
      constructor
      · rintro (h1 | h1)
        · exact ⟨Or.inl h1, h1 ▸ hk1⟩
        · exact ⟨Or.inr h1.1, h1.2⟩
      · rintro ⟨h1 | h1, h2⟩
        · exact Or.inl h1
        · exact Or.inr ⟨h1, h2⟩
    · next hk =>
      have hk1 : k1 = CanonicalMIMEHeaderKey name := by simpa using hk
      simp only [keys_cons, List.mem_cons, ih1]
      constructor
      · rintro ⟨h1, h2⟩; exact ⟨Or.inr h1, h2⟩
      · rintro ⟨h1 | h1, h2⟩
        · exact absurd (h1.trans hk1) h2
        · exact ⟨h1, h2⟩

theorem values_Del (h : Header) (name k : Str) :
    values (Del h name) k = if k = CanonicalMIMEHeaderKey name then [] else values h k := by
  induction h with
  | nil => simp [Del, values_nil]
  | cons e h ih =>
    obtain ⟨k1, vs⟩ := e
    have ih1 : values (List.filter (fun e => decide (e.1 ≠ CanonicalMIMEHeaderKey name)) h) k =
        if k = CanonicalMIMEHeaderKey name then [] else values h k := ih
    simp only [Del, List.filter_cons]
    split
    · next hk =>
      have hk1 : k1 ≠ CanonicalMIMEHeaderKey name := by simpa using hk
      simp only [values_cons, ih1]
      by_cases h1 : k = k1
      · have : k ≠ CanonicalMIMEHeaderKey name := h1 ▸ hk1
        simp [h1, hk1]
      · simp [h1]
    · next hk =>
      have hk1 : k1 = CanonicalMIMEHeaderKey name := by simpa using hk
      simp only [values_cons, ih1]
      by_cases h1 : k = CanonicalMIMEHeaderKey name
      · simp [h1]
      · have : k ≠ k1 := fun h2 => h1 (h2.trans hk1)
        simp [h1, this]

theorem nodup_keys_Del (h : Header) (name : Str) (hn : (keys h).Nodup) :
    (keys (Del h name)).Nodup := by
  unfold keys Del
  exact hn.sublist ((List.filter_sublist h).map Prod.fst)

theorem values_addAll (key : Str) (vs : List Str) :
    ∀ (d : Header) (k : Str),
      values (vs.foldl (fun d1 v => Add d1 key v) d) k =
        if k = CanonicalMIMEHeaderKey key then values d k ++ vs else values d k := by
  induction vs with
  | nil => intro d k; simp
  | cons v vs ih =>
    intro d k
    rw [List.foldl_cons, ih]
    simp only [Add, values_appendValue]
    split <;> simp

theorem mem_keys_addAll (key : Str) (vs : List Str) :
    ∀ (d : Header) (k : Str),
      k ∈ keys (vs.foldl (fun d1 v => Add d1 key v) d) ↔
        k ∈ keys d ∨ (vs ≠ [] ∧ k = CanonicalMIMEHeaderKey key) := by
  induction vs with
  | nil => intro d k; simp
  | cons v vs ih =>
    intro d k
    rw [List.foldl_cons, ih]
    simp only [Add, mem_keys_appendValue]
    by_cases h : vs = [] <;> simp [h] <;> tauto

theorem nodup_keys_addAll (key : Str) (vs : List Str) :
    ∀ d : Header, (keys d).Nodup →
      (keys (vs.foldl (fun d1 v => Add d1 key v) d)).Nodup := by
  induction vs with
  | nil => intro d hd; simpa using hd
  | cons v vs ih =>
    intro d hd
    simp only [List.foldl_cons]
    exact ih _ (nodup_keys_appendValue d _ v hd)

end Header

theorem copied_nil (k : Str) : copied [] k = [] := rfl

theorem copied_cons (e : Str × List Str) (src : Header) (k : Str) :
    copied (e :: src) k =
      if CanonicalMIMEHeaderKey e.1 = k then e.2 ++ copied src k else copied src k := by
  unfold copied
  rw [List.filter_cons]
  by_cases h : CanonicalMIMEHeaderKey e.1 = k <;> simp [h]

theorem values_copyHeader (src : Header) :
    ∀ (d : Header) (k : Str),
      Header.values (copyHeader src d) k = Header.values d k ++ copied src k := by
  induction src with
  | nil => intro d k; simp [copyHeader, copied_nil]
  | cons e src ih =>
    intro d k
    have ih1 := ih (e.2.foldl (fun d1 v => Header.Add d1 e.1 v) d) k
    unfold copyHeader at ih1 ⊢
    rw [List.foldl_cons, ih1, Header.values_addAll, copied_cons]
    by_cases h : k = CanonicalMIMEHeaderKey e.1
    · simp [h]
    · have h1 : ¬ CanonicalMIMEHeaderKey e.1 = k := fun h2 => h h2.symm
      simp [h, h1]

theorem mem_keys_copyHeader (src : Header) :
    ∀ (d : Header) (k : Str),
      k ∈ Header.keys (copyHeader src d) ↔
        k ∈ Header.keys d ∨ ∃ e ∈ src, e.2 ≠ [] ∧ k = CanonicalMIMEHeaderKey e.1 := by
  induction src with
  | nil => intro d k; simp [copyHeader]
  | cons e src ih =>
    intro d k
    have ih1 := ih (e.2.foldl (fun d1 v => Header.Add d1 e.1 v) d) k
    unfold copyHeader at ih1 ⊢
    rw [List.foldl_cons, ih1, Header.mem_keys_addAll]
    simp only [List.mem_cons, exists_eq_or_imp]
    tauto

theorem nodup_keys_copyHeader (src : Header) :
    ∀ d : Header, (Header.keys d).Nodup → (Header.keys (copyHeader src d)).Nodup := by
  induction src with
  | nil => intro d hd; simpa [copyHeader] using hd
  | cons e src ih =>
    intro d hd
    have ih1 := ih (e.2.foldl (fun d1 v => Header.Add d1 e.1 v) d)
      (Header.nodup_keys_addAll e.1 e.2 d hd)
    unfold copyHeader at ih1 ⊢
    rw [List.foldl_cons]
    exact ih1

theorem copied_eq_nil_of_not_mem (src : Header) (k : Str) (hc : CanonicalKeys src)
    (hk : k ∉ Header.keys src) : copied src k = [] := by
  induction src with
  | nil => rfl
  | cons e src ih =>
    have he : CanonicalMIMEHeaderKey e.1 = e.1 := hc e.1 (by simp [Header.keys])
    have hc1 : CanonicalKeys src := fun k1 hk1 => hc k1 (by
      simp only [Header.keys_cons, List.mem_cons]; exact Or.inr hk1)
    simp only [Header.keys_cons, List.mem_cons, not_or] at hk
    rw [copied_cons, he, if_neg (fun h => hk.1 h.symm), ih hc1 hk.2]

/-- On a map with one entry per key and canonical keys, copying adds under
each key exactly the values the map holds under it. -/
theorem copied_eq_values (src : Header) (k : Str) (hc : CanonicalKeys src)
    (hn : (Header.keys src).Nodup) : copied src k = Header.values src k := by
  induction src with
  | nil => rfl
  | cons e src ih =>
    obtain ⟨k1, vs⟩ := e
    have he : CanonicalMIMEHeaderKey k1 = k1 := hc k1 (by simp [Header.keys])
    have hc1 : CanonicalKeys src := fun k2 hk2 => hc k2 (by
      simp only [Header.keys_cons, List.mem_cons]; exact Or.inr hk2)
    simp only [Header.keys_cons, List.nodup_cons] at hn
    rw [copied_cons, Header.values_cons]
    simp only [he]
    by_cases h : k1 = k
    · subst h
      simp [copied_eq_nil_of_not_mem src k1 hc1 hn.1]
    · have h1 : ¬ k = k1 := fun h2 => h h2.symm
      rw [if_neg h, if_neg h1, ih hc1 hn.2]

/-! ## The outbound request -/

theorem handleRequest_sent (W : World) (target : Str) (r : Request) :
    (handleRequest W target r).sent =
      match W.urlParse (W.urlString r.URL), W.newRequest r.Method (targetURL target r) with
      | none, none =>
        if Contains (targetURL target r) (lit "aiplatform.googleapis.com") then
          match getVertexAuthToken W with
          | .error _ => []
          | .ok token =>
            [{ Method := r.Method, URL := targetURL target r,
               Header := Header.Set (copyHeader (strippedHeader r.Header) [])
                 (lit "Authorization") (lit "Bearer " ++ token),
               Body := r.Body }]
        else
          [{ Method := r.Method, URL := targetURL target r,
             Header := copyHeader (strippedHeader r.Header) [], Body := r.Body }]
      | _, _ => [] := by
  by_cases hp : W.getenv (lit "ENV") = lit "local" <;>
  cases h1 : W.urlParse (W.urlString r.URL) <;>
  cases h2 : W.newRequest r.Method (targetURL target r) <;>
  by_cases h3 : Contains (targetURL target r) (lit "aiplatform.googleapis.com") = true <;>
  cases h4 : getVertexAuthToken W <;>
  simp [handleRequest, hp, h1, h2, h3, h4, forward_sent, strippedHeader]

theorem handleRequest_tokenCalls (W : World) (target : Str) (r : Request) :
    (handleRequest W target r).tokenCalls =
      if W.urlParse (W.urlString r.URL) = none ∧
          W.newRequest r.Method (targetURL target r) = none ∧
          Contains (targetURL target r) (lit "aiplatform.googleapis.com") = true
      then 1 else 0 := by
  by_cases hp : W.getenv (lit "ENV") = lit "local" <;>
  cases h1 : W.urlParse (W.urlString r.URL) <;>
  cases h2 : W.newRequest r.Method (targetURL target r) <;>
  by_cases h3 : Contains (targetURL target r) (lit "aiplatform.googleapis.com") = true <;>
  cases h4 : getVertexAuthToken W <;>
  simp [handleRequest, hp, h1, h2, h3, h4, forward_tokenCalls]

/-! ## The destination URL (C3) and the credential provider (C1) -/

theorem lit_vertex :
    lit "aiplatform.googleapis.com" =
      [97, 105, 112, 108, 97, 116, 102, 111, 114, 109, 46, 103, 111, 111, 103, 108, 101,
        97, 112, 105, 115, 46, 99, 111, 109] := by decide

theorem lit_default :
    lit "https://api.openai.com" =
      [104, 116, 116, 112, 115, 58, 47, 47, 97, 112, 105, 46, 111, 112, 101, 110, 97,
        105, 46, 99, 111, 109] := by decide

/-- No occurrence of the host marker starts inside "https://api.openai.com". -/
theorem Contains_default_append (t : Str) :
    Contains (lit "https://api.openai.com" ++ t) (lit "aiplatform.googleapis.com") =
      Contains t (lit "aiplatform.googleapis.com") := by
  rw [Bool.eq_iff_iff, Contains_iff, Contains_iff, lit_vertex, lit_default]
  simp [List.infix_cons_iff, List.cons_prefix_cons]

theorem targetURL_eq (target : Str) (r : Request) :
    targetURL target r =
      (if Header.Get r.Header (lit "X-Target-Host") ≠ [] then
          lit "https://" ++ Header.Get r.Header (lit "X-Target-Host")
        else target) ++ newPath r.URL.Path ++
      (if r.URL.RawQuery ≠ [] then lit "?" ++ r.URL.RawQuery else []) := by
  unfold targetURL
  by_cases h : Header.Get r.Header (lit "X-Target-Host") = [] <;>
  by_cases hq : r.URL.RawQuery = [] <;> simp [h, hq]

/-- Claim C3: the destination URL is origin ++ normalized path ++ suffix, with
origin "https://" ++ h for a non-empty X-Target-Host value h and the
configured target otherwise, and suffix "?" ++ q for a non-empty raw query q
and empty otherwise; so with a non-empty h the URL is the same for every
configured target; this URL is the one of the request handed to the client;
and "/release/v1/models" with query "limit=5", no X-Target-Host and the
default target gives "https://api.openai.com/v1/models?limit=5". -/
theorem C3_targetURL_is_origin_path_query (W : World) (target : Str) (r : Request) :
    targetURL target r =
      (if Header.Get r.Header (lit "X-Target-Host") ≠ [] then
          lit "https://" ++ Header.Get r.Header (lit "X-Target-Host")
        else target) ++ newPath r.URL.Path ++
      (if r.URL.RawQuery ≠ [] then lit "?" ++ r.URL.RawQuery else []) ∧
    (∀ d : Str, Header.Get r.Header (lit "X-Target-Host") = [] ∨
      targetURL d r = targetURL target r) ∧
    (handleRequest W target r).sent.all (fun q => decide (q.URL = targetURL target r)) = true ∧
    targetURL (lit "https://api.openai.com")
        { Method := lit "GET", URL := ⟨lit "/release/v1/models", lit "limit=5"⟩,
          Header := [], Body := [] } =
      lit "https://api.openai.com/v1/models?limit=5" := by
  refine ⟨targetURL_eq target r, ?_, ?_, by decide⟩
  · intro d
    by_cases h : Header.Get r.Header (lit "X-Target-Host") = []
    · exact Or.inl h
    · right
      rw [targetURL_eq, targetURL_eq, if_pos h, if_pos h]
  · rw [handleRequest_sent]
    split
    · split
      · split <;> simp
      · simp
    · simp

/-- Claim C1, as stated, fails: a request without X-Target-Host to the
target "https://api.openai.com" whose raw query holds the host marker makes
the handler call the credential provider once (and send the token on to
api.openai.com). -/
theorem C1_counterexample :
    Header.Get (sampleRequest "/v1/models" "x=aiplatform.googleapis.com" []).Header
        (lit "X-Target-Host") = [] ∧
    targetURL (lit "https://api.openai.com")
        (sampleRequest "/v1/models" "x=aiplatform.googleapis.com" []) =
      lit "https://api.openai.com/v1/models?x=aiplatform.googleapis.com" ∧
    (handleRequest sampleWorld (lit "https://api.openai.com")
        (sampleRequest "/v1/models" "x=aiplatform.googleapis.com" [])).tokenCalls = 1 ∧
    ((handleRequest sampleWorld (lit "https://api.openai.com")
        (sampleRequest "/v1/models" "x=aiplatform.googleapis.com" [])).sent.map
          (fun q => Header.values q.Header (lit "Authorization"))) =
      [[lit "Bearer ya29.token"]] := by
  decide

/-- Claim C1, amended: the credential provider is called (once) exactly when
the inbound URL parses, the outbound request can be built and the resolved
destination URL as a whole (origin, normalized path and query) contains
"aiplatform.googleapis.com"; in particular, without an X-Target-Host value
and with the target "https://api.openai.com", it is not called when the
normalized path followed by the query suffix does not contain that marker. -/
theorem C1_token_called_iff_url_contains (W : World) (target : Str) (r : Request) :
    (handleRequest W target r).tokenCalls =
      (if W.urlParse (W.urlString r.URL) = none ∧
          W.newRequest r.Method (targetURL target r) = none ∧
          Contains (targetURL target r) (lit "aiplatform.googleapis.com") = true
        then 1 else 0) ∧
    (Header.Get r.Header (lit "X-Target-Host") = [] →
      target = lit "https://api.openai.com" →
      Contains (newPath r.URL.Path ++
          (if r.URL.RawQuery ≠ [] then lit "?" ++ r.URL.RawQuery else []))
        (lit "aiplatform.googleapis.com") = false →
      (handleRequest W target r).tokenCalls = 0) := by
  refine ⟨handleRequest_tokenCalls W target r, ?_⟩
  intro h ht hc
  subst ht
  have hu : Contains (targetURL (lit "https://api.openai.com") r)
      (lit "aiplatform.googleapis.com") = false := by
    rw [targetURL_eq, if_neg (fun hne => hne h), List.append_assoc, Contains_default_append]
    exact hc
  rw [handleRequest_tokenCalls, hu]
  simp

theorem C1_token_called_iff_url_contains_witness :
    (handleRequest sampleWorld (lit "https://api.openai.com")
        (sampleRequest "/release/v1/models" "limit=5" [])).tokenCalls = 0 :=
  (C1_token_called_iff_url_contains sampleWorld (lit "https://api.openai.com")
    (sampleRequest "/release/v1/models" "limit=5" [])).2 (by decide) rfl (by decide)

/-- The end-to-end scenario of the specification: `GET /release/v1/models?limit=5`
without X-Target-Host and with the default target is sent to
"https://api.openai.com/v1/models?limit=5", and the upstream status, header
and body reach the client. -/
theorem endToEnd_scenario :
    (handleRequest sampleWorld defaultTarget
        (sampleRequest "/release/v1/models" "limit=5" [])).sent.map (fun q => q.URL) =
      [lit "https://api.openai.com/v1/models?limit=5"] ∧
    (handleRequest sampleWorld defaultTarget
        (sampleRequest "/release/v1/models" "limit=5" [])).w =
      { Header := [(lit "Content-Type", [lit "application/json"])]
        Status := some 200
        Body := lit "\x7b\"data\":[]\x7d"
        writes := 1
        flushes := 1 } := by
  decide

/-! ## The outbound header map (C2, C8, C9) -/

theorem mem_sent (W : World) (target : Str) (r : Request) (q : ProxyRequest)
    (hq : q ∈ (handleRequest W target r).sent) :
    W.urlParse (W.urlString r.URL) = none ∧
    W.newRequest r.Method (targetURL target r) = none ∧
    (handleRequest W target r).sent = [q] ∧
    q.Method = r.Method ∧ q.URL = targetURL target r ∧ q.Body = r.Body ∧
    ((Contains (targetURL target r) (lit "aiplatform.googleapis.com") = false ∧
        q.Header = copyHeader (strippedHeader r.Header) []) ∨
      (Contains (targetURL target r) (lit "aiplatform.googleapis.com") = true ∧
        ∃ token, getVertexAuthToken W = .ok token ∧
          q.Header = Header.Set (copyHeader (strippedHeader r.Header) [])
            (lit "Authorization") (lit "Bearer " ++ token))) := by
  rw [handleRequest_sent] at hq ⊢
  cases h1 : W.urlParse (W.urlString r.URL) with
  | some e => simp [h1] at hq
  | none =>
    cases h2 : W.newRequest r.Method (targetURL target r) with
    | some e => simp [h1, h2] at hq
    | none =>
      by_cases h3 : Contains (targetURL target r) (lit "aiplatform.googleapis.com") = true
      · cases h4 : getVertexAuthToken W with
        | error e => simp [h1, h2, h3, h4] at hq
        | ok token =>
          simp only [h1, h2, h3, h4, if_true, List.mem_singleton] at hq ⊢
          subst hq
          simp
      · have h3f : Contains (targetURL target r) (lit "aiplatform.googleapis.com") = false := by
          simpa using h3
        simp only [h1, h2, h3f, Bool.false_eq_true, if_false, List.mem_singleton] at hq ⊢
        subst hq
        simp

theorem mem_keys_strippedHeader (h : Header) (k : Str) :
    k ∈ Header.keys (strippedHeader h) ↔
      k ∈ Header.keys h ∧ k ≠ CanonicalMIMEHeaderKey (lit "X-Forwarded-For") ∧
        k ≠ CanonicalMIMEHeaderKey (lit "X-Real-IP") ∧
        k ≠ CanonicalMIMEHeaderKey (lit "Client-IP") := by
  unfold strippedHeader
  simp only [Header.mem_keys_Del]
  tauto

theorem values_strippedHeader (h : Header) (k : Str)
    (h1 : k ≠ CanonicalMIMEHeaderKey (lit "X-Forwarded-For"))
    (h2 : k ≠ CanonicalMIMEHeaderKey (lit "X-Real-IP"))
    (h3 : k ≠ CanonicalMIMEHeaderKey (lit "Client-IP")) :
    Header.values (strippedHeader h) k = Header.values h k := by
  unfold strippedHeader
  simp only [Header.values_Del, if_neg h1, if_neg h2, if_neg h3]

theorem canonicalKeys_strippedHeader (h : Header) (hc : CanonicalKeys h) :
    CanonicalKeys (strippedHeader h) :=
  fun k hk => hc k ((mem_keys_strippedHeader h k).1 hk).1

theorem nodup_keys_strippedHeader (h : Header) (hn : (Header.keys h).Nodup) :
    (Header.keys (strippedHeader h)).Nodup :=
  Header.nodup_keys_Del _ _ (Header.nodup_keys_Del _ _ (Header.nodup_keys_Del _ _ hn))

/-- A name that differs from a token-character name `n` at most in case is
not different from the canonical form of `n` once it is canonical itself. -/
theorem eq_canonical_of_EqualFold (k n : Str) (hn : n.all validHeaderFieldByte = true)
    (hk : CanonicalMIMEHeaderKey k = k) (h : EqualFold k n = true) :
    k = CanonicalMIMEHeaderKey n := by
  rw [← hk]
  exact CanonicalMIMEHeaderKey_eq_of_EqualFold k n hn h

theorem EqualFold_CanonicalMIMEHeaderKey (n : Str) :
    EqualFold (CanonicalMIMEHeaderKey n) n = true := by
  simp [EqualFold, map_lower_CanonicalMIMEHeaderKey]

theorem CanonicalMIMEHeaderKey_idem (a : Str) :
    CanonicalMIMEHeaderKey (CanonicalMIMEHeaderKey a) = CanonicalMIMEHeaderKey a := by
  by_cases ha : a.all validHeaderFieldByte = true
  · exact CanonicalMIMEHeaderKey_eq_of_EqualFold _ a ha (EqualFold_CanonicalMIMEHeaderKey a)
  · have : CanonicalMIMEHeaderKey a = a := by
      unfold CanonicalMIMEHeaderKey; rw [if_neg ha]
    rw [this, this]

/-- Every key of a copy into the empty map is the canonical form of a key of
the source. -/
theorem mem_keys_copyHeader_nil (src : Header) (k : Str)
    (hk : k ∈ Header.keys (copyHeader src [])) :
    ∃ k1 ∈ Header.keys src, k = CanonicalMIMEHeaderKey k1 := by
  rcases (mem_keys_copyHeader src [] k).1 hk with h | ⟨e, he, _, hke⟩
  · simp [Header.keys] at h
  · exact ⟨e.1, List.mem_map_of_mem Prod.fst he, hke⟩

theorem trimSpaceStop_ascii (W : World) (l : Str) (h : ∀ c ∈ l, c < 128) :
    trimSpaceStop W l = (l.dropWhile asciiSpace).reverse := by
  induction l with
  | nil => rfl
  | cons c l ih =>
    have hc : ¬ 128 ≤ c := Nat.not_le.2 (h c (List.mem_cons_self c l))
    have hl : ∀ x ∈ l, x < 128 := fun x hx => h x (List.mem_cons_of_mem c hx)
    simp only [trimSpaceStop, if_neg hc, List.dropWhile_cons]
    split
    · exact ih hl
    · rfl

theorem TrimSpace_ascii (W : World) (s : Str) (h : ∀ c ∈ s, c < 128) :
    TrimSpace W s = trimmed s := by
  induction s with
  | nil => rfl
  | cons c s ih =>
    have hc : ¬ 128 ≤ c := Nat.not_le.2 (h c (List.mem_cons_self c s))
    have hs : ∀ x ∈ s, x < 128 := fun x hx => h x (List.mem_cons_of_mem c hx)
    unfold trimmed at ih ⊢
    simp only [TrimSpace, if_neg hc, List.dropWhile_cons]
    split
    · exact ih hs
    · exact trimSpaceStop_ascii W _ (fun x hx => h x (List.mem_reverse.1 hx))

/-- Claim C2: when the keys of the inbound header map are canonical, no
request handed to the client carries a header whose name equals, without
regard to case, X-Forwarded-For, X-Real-IP or Client-IP: for every target,
every X-Target-Host value and every environment. -/
theorem C2_identity_headers_never_forwarded (W : World) (target : Str) (r : Request)
    (q : ProxyRequest) (k : Str) (hc : CanonicalKeys r.Header)
    (hq : q ∈ (handleRequest W target r).sent) (hk : k ∈ Header.keys q.Header) :
    EqualFold k (lit "X-Forwarded-For") = false ∧
    EqualFold k (lit "X-Real-IP") = false ∧
    EqualFold k (lit "Client-IP") = false := by
  obtain ⟨_, _, _, _, _, _, hcase⟩ := mem_sent W target r q hq
  have hcopy : ∀ k1, k1 ∈ Header.keys (copyHeader (strippedHeader r.Header) []) →
      CanonicalMIMEHeaderKey k1 = k1 ∧
      k1 ≠ CanonicalMIMEHeaderKey (lit "X-Forwarded-For") ∧
      k1 ≠ CanonicalMIMEHeaderKey (lit "X-Real-IP") ∧
      k1 ≠ CanonicalMIMEHeaderKey (lit "Client-IP") := by
    intro k1 hk1
    obtain ⟨k2, hk2, e⟩ := mem_keys_copyHeader_nil _ _ hk1
    have hm := (mem_keys_strippedHeader r.Header k2).1 hk2
    have hk2c : CanonicalMIMEHeaderKey k2 = k2 := hc k2 hm.1
    rw [hk2c] at e
    subst e
    exact ⟨hk2c, hm.2⟩
  have hfin : ∀ k1, (CanonicalMIMEHeaderKey k1 = k1 ∧
      k1 ≠ CanonicalMIMEHeaderKey (lit "X-Forwarded-For") ∧
      k1 ≠ CanonicalMIMEHeaderKey (lit "X-Real-IP") ∧
      k1 ≠ CanonicalMIMEHeaderKey (lit "Client-IP")) →
      EqualFold k1 (lit "X-Forwarded-For") = false ∧
      EqualFold k1 (lit "X-Real-IP") = false ∧
      EqualFold k1 (lit "Client-IP") = false := by
    intro k1 ⟨hcan, n1, n2, n3⟩
    refine ⟨?_, ?_, ?_⟩
    · by_contra hf
      exact n1 (eq_canonical_of_EqualFold k1 _ (by decide) hcan (by simpa using hf))
    · by_contra hf
      exact n2 (eq_canonical_of_EqualFold k1 _ (by decide) hcan (by simpa using hf))
    · by_contra hf
      exact n3 (eq_canonical_of_EqualFold k1 _ (by decide) hcan (by simpa using hf))
  rcases hcase with ⟨_, hh⟩ | ⟨_, token, _, hh⟩
  · rw [hh] at hk
    exact hfin k (hcopy k hk)
  · rw [hh] at hk
    rcases (Header.mem_keys_assign _ _ _ k).1 hk with e | hk1
    · subst e
      decide
    · exact hfin k (hcopy k hk1)

theorem C2_identity_headers_never_forwarded_witness :
    CanonicalKeys (sampleRequest "/v1/models" "" sampleHeader).Header ∧
    ({ Method := lit "GET", URL := lit "https://api.openai.com/v1/models",
       Header := [(lit "Cookie", [lit "a=1", lit "b=2"]),
                  (lit "Authorization", [lit "Bearer sk-1", lit "Bearer sk-2"])],
       Body := [] } : ProxyRequest) ∈
      (handleRequest sampleWorld (lit "https://api.openai.com")
        (sampleRequest "/v1/models" "" sampleHeader)).sent ∧
    lit "Cookie" ∈ Header.keys
      [(lit "Cookie", [lit "a=1", lit "b=2"]),
       (lit "Authorization", [lit "Bearer sk-1", lit "Bearer sk-2"])] ∧
    (EqualFold (lit "Cookie") (lit "X-Forwarded-For") = false ∧
      EqualFold (lit "Cookie") (lit "X-Real-IP") = false ∧
      EqualFold (lit "Cookie") (lit "Client-IP") = false) :=
  ⟨by unfold CanonicalKeys; decide, by decide, by decide,
    C2_identity_headers_never_forwarded sampleWorld (lit "https://api.openai.com")
      (sampleRequest "/v1/models" "" sampleHeader)
      { Method := lit "GET", URL := lit "https://api.openai.com/v1/models",
        Header := [(lit "Cookie", [lit "a=1", lit "b=2"]),
                   (lit "Authorization", [lit "Bearer sk-1", lit "Bearer sk-2"])],
        Body := [] }
      (lit "Cookie") (by unfold CanonicalKeys; decide) (by decide) (by decide)⟩

/-- Claim C8: when the inbound header map has one entry per key and canonical
keys, every header name other than X-Forwarded-For, X-Real-IP and Client-IP
(and other than Authorization when the credential is injected) has on the
request handed to the client exactly the inbound list of values, in the same
order and number, and is a name of the outbound request only if it is a name
of the inbound one. -/
theorem C8_other_headers_copied_verbatim (W : World) (target : Str) (r : Request)
    (q : ProxyRequest) (k : Str)
    (hn : (Header.keys r.Header).Nodup) (hc : CanonicalKeys r.Header)
    (hq : q ∈ (handleRequest W target r).sent)
    (h1 : EqualFold k (lit "X-Forwarded-For") = false)
    (h2 : EqualFold k (lit "X-Real-IP") = false)
    (h3 : EqualFold k (lit "Client-IP") = false)
    (h4 : Contains (targetURL target r) (lit "aiplatform.googleapis.com") = true →
      EqualFold k (lit "Authorization") = false) :
    Header.values q.Header k = Header.values r.Header k ∧
    (Header.values q.Header k).length = (Header.values r.Header k).length ∧
    (k ∈ Header.keys q.Header → k ∈ Header.keys r.Header) := by
  obtain ⟨_, _, _, _, _, _, hcase⟩ := mem_sent W target r q hq
  have ne_of : ∀ n : Str, EqualFold k n = false → k ≠ CanonicalMIMEHeaderKey n := by
    intro n hf e
    rw [e, EqualFold_CanonicalMIMEHeaderKey] at hf
    exact Bool.noConfusion hf
  have n1 := ne_of _ h1
  have n2 := ne_of _ h2
  have n3 := ne_of _ h3
  have hvals : Header.values (copyHeader (strippedHeader r.Header) []) k =
      Header.values r.Header k := by
    rw [values_copyHeader, Header.values_nil, List.nil_append,
      copied_eq_values _ _ (canonicalKeys_strippedHeader _ hc)
        (nodup_keys_strippedHeader _ hn),
      values_strippedHeader _ _ n1 n2 n3]
  have hkeys : k ∈ Header.keys (copyHeader (strippedHeader r.Header) []) →
      k ∈ Header.keys r.Header := by
    intro hk
    obtain ⟨k2, hk2, e⟩ := mem_keys_copyHeader_nil _ _ hk
    have hm := (mem_keys_strippedHeader r.Header k2).1 hk2
    rw [hc k2 hm.1] at e
    rw [e]
    exact hm.1
  have main : Header.values q.Header k = Header.values r.Header k ∧
      (k ∈ Header.keys q.Header → k ∈ Header.keys r.Header) := by
    rcases hcase with ⟨_, hh⟩ | ⟨hcon, token, _, hh⟩
    · rw [hh]
      exact ⟨hvals, hkeys⟩
    · have n4 := ne_of _ (h4 hcon)
      rw [hh]
      refine ⟨?_, ?_⟩
      · unfold Header.Set
        rw [Header.values_assign, if_neg n4, hvals]
      · intro hk
        unfold Header.Set at hk
        rcases (Header.mem_keys_assign _ _ _ k).1 hk with e | hk1
        · exact absurd e n4
        · exact hkeys hk1
  exact ⟨main.1, congrArg List.length main.1, main.2⟩

theorem C8_other_headers_copied_verbatim_witness :
    Header.values
        ({ Method := lit "GET", URL := lit "https://api.openai.com/v1/models",
           Header := [(lit "Cookie", [lit "a=1", lit "b=2"]),
                      (lit "Authorization", [lit "Bearer sk-1", lit "Bearer sk-2"])],
           Body := [] } : ProxyRequest).Header (lit "Cookie") =
      Header.values (sampleRequest "/v1/models" "" sampleHeader).Header (lit "Cookie") ∧
    (Header.values
        ({ Method := lit "GET", URL := lit "https://api.openai.com/v1/models",
           Header := [(lit "Cookie", [lit "a=1", lit "b=2"]),
                      (lit "Authorization", [lit "Bearer sk-1", lit "Bearer sk-2"])],
           Body := [] } : ProxyRequest).Header (lit "Cookie")).length =
      (Header.values (sampleRequest "/v1/models" "" sampleHeader).Header (lit "Cookie")).length ∧
    (lit "Cookie" ∈ Header.keys
        ({ Method := lit "GET", URL := lit "https://api.openai.com/v1/models",
           Header := [(lit "Cookie", [lit "a=1", lit "b=2"]),
                      (lit "Authorization", [lit "Bearer sk-1", lit "Bearer sk-2"])],
           Body := [] } : ProxyRequest).Header →
      lit "Cookie" ∈ Header.keys (sampleRequest "/v1/models" "" sampleHeader).Header) :=
  C8_other_headers_copied_verbatim sampleWorld (lit "https://api.openai.com")
    (sampleRequest "/v1/models" "" sampleHeader)
    { Method := lit "GET", URL := lit "https://api.openai.com/v1/models",
      Header := [(lit "Cookie", [lit "a=1", lit "b=2"]),
                 (lit "Authorization", [lit "Bearer sk-1", lit "Bearer sk-2"])],
      Body := [] }
    (lit "Cookie") (by decide) (by unfold CanonicalKeys; decide) (by decide)
    (by decide) (by decide) (by decide) (by decide)

/-- Claim C9: when the inbound URL parses, the outbound request is built, the
destination URL triggers the injection and the credential provider prints
`o`, exactly one request is handed to the client and its Authorization header
has the single value "Bearer " ++ TrimSpace(o), whatever Authorization values
came in; no other key of that request equals Authorization up to case, and no
key occurs twice.  For an ASCII `o`, TrimSpace(o) is `o` without its leading
and trailing white space. -/
theorem C9_authorization_replaced_by_bearer_token (W : World) (target : Str) (r : Request)
    (o : Str)
    (h1 : W.urlParse (W.urlString r.URL) = none)
    (h2 : W.newRequest r.Method (targetURL target r) = none)
    (h3 : Contains (targetURL target r) (lit "aiplatform.googleapis.com") = true)
    (h4 : W.cmdOutput = .ok o) :
    ∃ q : ProxyRequest,
      (handleRequest W target r).sent = [q] ∧
      (handleRequest W target r).tokenCalls = 1 ∧
      Header.values q.Header (lit "Authorization") = [lit "Bearer " ++ TrimSpace W o] ∧
      (∀ k ∈ Header.keys q.Header, EqualFold k (lit "Authorization") = true →
        k = lit "Authorization") ∧
      (Header.keys q.Header).Nodup ∧
      ((∀ c ∈ o, c < 128) → TrimSpace W o = trimmed o) := by
  have htok : getVertexAuthToken W = .ok (TrimSpace W o) := by
    unfold getVertexAuthToken; rw [h4]
  have hauth : CanonicalMIMEHeaderKey (lit "Authorization") = lit "Authorization" := by decide
  refine ⟨{ Method := r.Method, URL := targetURL target r,
            Header := Header.Set (copyHeader (strippedHeader r.Header) [])
              (lit "Authorization") (lit "Bearer " ++ TrimSpace W o),
            Body := r.Body }, ?_, ?_, ?_, ?_, ?_, TrimSpace_ascii W o⟩
  · rw [handleRequest_sent]
    simp [h1, h2, h3, htok]
  · rw [handleRequest_tokenCalls]
    simp [h1, h2, h3]
  · simp only [Header.Set, Header.values_assign, hauth, if_true]
  · intro k hk hf
    simp only [Header.Set, hauth] at hk
    rcases (Header.mem_keys_assign _ _ _ k).1 hk with e | hk1
    · exact e
    · obtain ⟨k2, _, e⟩ := mem_keys_copyHeader_nil _ _ hk1
      have := CanonicalMIMEHeaderKey_eq_of_EqualFold k (lit "Authorization") (by decide) hf
      rw [e, CanonicalMIMEHeaderKey_idem, ← e, hauth] at this
      exact this
  · simp only [Header.Set]
    exact Header.nodup_keys_assign _ _ _ (nodup_keys_copyHeader _ [] (by simp [Header.keys]))

theorem C9_authorization_replaced_by_bearer_token_witness :
    ∃ q : ProxyRequest,
      (handleRequest sampleWorld (lit "https://api.openai.com")
        (sampleRequest "/v1/x"  ""
          ((lit "X-Target-Host", [lit "us-aiplatform.googleapis.com"]) :: sampleHeader))).sent
        = [q] ∧
      (handleRequest sampleWorld (lit "https://api.openai.com")
        (sampleRequest "/v1/x"  ""
          ((lit "X-Target-Host", [lit "us-aiplatform.googleapis.com"]) :: sampleHeader))).tokenCalls
        = 1 ∧
      Header.values q.Header (lit "Authorization") =
        [lit "Bearer " ++ TrimSpace sampleWorld (lit "ya29.token\n")] ∧
      (∀ k ∈ Header.keys q.Header, EqualFold k (lit "Authorization") = true →
        k = lit "Authorization") ∧
      (Header.keys q.Header).Nodup ∧
      ((∀ c ∈ lit "ya29.token\n", c < 128) →
        TrimSpace sampleWorld (lit "ya29.token\n") = trimmed (lit "ya29.token\n")) :=
  C9_authorization_replaced_by_bearer_token sampleWorld (lit "https://api.openai.com")
    (sampleRequest "/v1/x"  ""
      ((lit "X-Target-Host", [lit "us-aiplatform.googleapis.com"]) :: sampleHeader))
    (lit "ya29.token\n") rfl rfl (by decide) rfl

/-! ## The relay loop (C4) -/

theorem relay_cons_of_err_none (W : World) (hw : ∀ i, W.writeErr i = none)
    (rd : ReadResult) (rest : List ReadResult) (o : Outcome) (h : rd.err = none) :
    ∃ o1 : Outcome, relay W (rd :: rest) o = relay W rest o1 ∧
      o1.w.Body = o.w.Body ++ rd.data ∧ o1.reads = o.reads + 1 := by
  by_cases hd : 0 < rd.data.length
  · refine ⟨if W.isFlusher then
        { o with reads := o.reads + 1, w := (o.w.Write rd.data).Flush }
      else { o with reads := o.reads + 1, w := o.w.Write rd.data }, ?_, ?_, ?_⟩
    · cases hf : W.isFlusher <;> simp [relay, hd, hw, h, hf]
    · cases hf : W.isFlusher <;>
        simp [ResponseWriter.Write, ResponseWriter.WriteHeader, ResponseWriter.Flush] <;>
        split <;> rfl
    · cases hf : W.isFlusher <;> simp
  · have hnil : rd.data = [] := by
      cases hdata : rd.data with
      | nil => rfl
      | cons a l => simp [hdata] at hd
    refine ⟨{ o with reads := o.reads + 1 }, ?_, ?_, rfl⟩
    · simp only [relay, if_neg hd, h]
    · simp [hnil]

theorem relay_cons_of_err_some (W : World) (hw : ∀ i, W.writeErr i = none)
    (rd : ReadResult) (rest : List ReadResult) (o : Outcome) (h : rd.err ≠ none) :
    (relay W (rd :: rest) o).w.Body = o.w.Body ++ rd.data ∧
    (relay W (rd :: rest) o).reads = o.reads + 1 ∧
    (relay W (rd :: rest) o).returned = true := by
  cases he : rd.err with
  | none => exact absurd he h
  | some e =>
    by_cases hd : 0 < rd.data.length
    · cases e <;> cases hf : W.isFlusher <;>
        simp [relay, hd, hw, he, hf, ResponseWriter.Write, ResponseWriter.WriteHeader,
          ResponseWriter.Flush] <;>
        split <;> rfl
    · have hnil : rd.data = [] := by
        cases hdata : rd.data with
        | nil => rfl
        | cons a l => simp [hdata] at hd
      cases e <;> simp [relay, he, hnil]

theorem relay_until_first_error (W : World) (hw : ∀ i, W.writeErr i = none)
    (last : ReadResult) (rest : List ReadResult) (hlast : last.err ≠ none) :
    ∀ (pre : List ReadResult) (o : Outcome), (∀ rd ∈ pre, rd.err = none) →
      (relay W (pre ++ last :: rest) o).w.Body =
        o.w.Body ++ (pre ++ [last]).flatMap (fun rd => rd.data) ∧
      (relay W (pre ++ last :: rest) o).reads = o.reads + (pre.length + 1) ∧
      (relay W (pre ++ last :: rest) o).returned = true := by
  intro pre
  induction pre with
  | nil =>
    intro o _
    simpa using relay_cons_of_err_some W hw last rest o hlast
  | cons rd pre ih =>
    intro o hpre
    obtain ⟨o1, e, hb, hr⟩ := relay_cons_of_err_none W hw rd (pre ++ last :: rest) o
      (hpre rd (List.mem_cons_self rd pre))
    obtain ⟨i1, i2, i3⟩ := ih o1 (fun x hx => hpre x (List.mem_cons_of_mem rd hx))
    rw [List.cons_append, e, i1, i2, i3, hb, hr]
    refine ⟨?_, ?_, rfl⟩
    · simp [List.flatMap_cons, List.append_assoc]
    · simp only [List.length_cons]; omega

/-! ## The handler around the upstream call (C4, C10) -/

theorem httpError_fresh (message : Str) (code : Nat) :
    httpError {} message code = errorResponse message code := by
  rfl

theorem handleRequest_of_sent (W : World) (target : Str) (r : Request) (q : ProxyRequest)
    (hq : q ∈ (handleRequest W target r).sent) :
    handleRequest W target r =
      forward W
        { tokenCalls :=
            if Contains (targetURL target r) (lit "aiplatform.googleapis.com") then 1 else 0
          printed :=
            if W.getenv (lit "ENV") = lit "local" then
              [lit "Proxying request to: " ++ targetURL target r ++ [10]]
            else [] }
        q := by
  obtain ⟨h1, h2, _, hm, hu, hb, hcase⟩ := mem_sent W target r q hq
  obtain ⟨qm, qu, qh, qb⟩ := q
  simp only at hm hu hb hcase
  subst hm hu hb
  rcases hcase with ⟨hcon, hh⟩ | ⟨hcon, token, htok, hh⟩
  · subst hh
    by_cases hp : W.getenv (lit "ENV") = lit "local" <;>
      simp [handleRequest, h1, h2, hcon, hp, strippedHeader]
  · subst hh
    by_cases hp : W.getenv (lit "ENV") = lit "local" <;>
      simp [handleRequest, h1, h2, hcon, htok, hp, strippedHeader]

/-- Claim C4: when every client write succeeds and the reads of the upstream
body are `pre` (all without error), then `last` (the first read with an
error, io.EOF or another), then possibly more, the relay loop hands to the
client exactly the data of `pre` and of `last`, concatenated in order, issues
exactly `pre.length + 1` reads and returns; so does `handleRequest` for a
response with that body. -/
theorem C4_relay_writes_chunks_up_to_first_error (W : World)
    (pre : List ReadResult) (last : ReadResult) (rest : List ReadResult)
    (hpre : ∀ rd ∈ pre, rd.err = none) (hlast : last.err ≠ none)
    (hw : ∀ i, W.writeErr i = none) :
    (∀ o : Outcome,
      (relay W (pre ++ last :: rest) o).w.Body =
        o.w.Body ++ (pre ++ [last]).flatMap (fun rd => rd.data) ∧
      (relay W (pre ++ last :: rest) o).reads = o.reads + (pre.length + 1) ∧
      (relay W (pre ++ last :: rest) o).returned = true) ∧
    (∀ (target : Str) (r : Request) (q : ProxyRequest) (resp : Response),
      q ∈ (handleRequest W target r).sent → W.clientDo q = .ok resp →
      resp.Body = pre ++ last :: rest →
      (handleRequest W target r).w.Body = (pre ++ [last]).flatMap (fun rd => rd.data) ∧
      (handleRequest W target r).reads = pre.length + 1 ∧
      (handleRequest W target r).returned = true ∧
      (handleRequest W target r).closed = true) := by
  refine ⟨fun o => relay_until_first_error W hw last rest hlast pre o hpre, ?_⟩
  intro target r q resp hq hdo hbody
  rw [handleRequest_of_sent W target r q hq]
  unfold forward
  rw [hdo]
  simp only [hbody]
  obtain ⟨i1, i2, i3⟩ := relay_until_first_error W hw last rest hlast pre
    { tokenCalls :=
        if Contains (targetURL target r) (lit "aiplatform.googleapis.com") then 1 else 0
      printed :=
        if W.getenv (lit "ENV") = lit "local" then
          [lit "Proxying request to: " ++ targetURL target r ++ [10]]
        else []
      sent := [] ++ [q]
      w := ResponseWriter.WriteHeader
        { ({} : ResponseWriter) with Header := copyHeader resp.Header [] } resp.StatusCode }
    hpre
  refine ⟨?_, ?_, i3, trivial⟩
  · rw [i1]; simp [ResponseWriter.WriteHeader]
  · rw [i2]; simp

theorem C4_relay_writes_chunks_up_to_first_error_witness :
    (handleRequest brokenBodyWorld (lit "https://api.openai.com")
        (sampleRequest "/v1/models" "" [])).w.Body =
      ([ReadResult.mk (lit "abc") none, ReadResult.mk [] none] ++
        [ReadResult.mk (lit "de") (some (.other (lit "unexpected EOF")))]).flatMap
          (fun rd => rd.data) ∧
    (handleRequest brokenBodyWorld (lit "https://api.openai.com")
        (sampleRequest "/v1/models" "" [])).reads =
      ([ReadResult.mk (lit "abc") none, ReadResult.mk [] none] : List ReadResult).length + 1 ∧
    (handleRequest brokenBodyWorld (lit "https://api.openai.com")
        (sampleRequest "/v1/models" "" [])).returned = true ∧
    (handleRequest brokenBodyWorld (lit "https://api.openai.com")
        (sampleRequest "/v1/models" "" [])).closed = true :=
  (C4_relay_writes_chunks_up_to_first_error brokenBodyWorld
    [ReadResult.mk (lit "abc") none, ReadResult.mk [] none] (ReadResult.mk (lit "de") (some (.other (lit "unexpected EOF"))))
    [ReadResult.mk (lit "zz") none] (by decide) (by decide) (fun _ => rfl)).2
    (lit "https://api.openai.com") (sampleRequest "/v1/models" "" [])
    { Method := lit "GET", URL := lit "https://api.openai.com/v1/models", Header := [],
      Body := [] }
    { StatusCode := 200, Header := [],
      Body := [ReadResult.mk (lit "abc") none, ReadResult.mk [] none,
               (ReadResult.mk (lit "de") (some (.other (lit "unexpected EOF")))), ReadResult.mk (lit "zz") none] }
    (by decide) rfl rfl

/-- Claim C10: once the inbound URL has parsed, (1) if `http.NewRequest`
fails, or (2) if the credential provider is called and fails, the client gets
status 500 with the fixed text of that step and nothing is handed to the
upstream client (no call, no read); (3) if the upstream call fails with
error text `e`, the client gets status 500 with `e` as the body text.  In
all three cases the response is the one `http.Error` writes, so it holds no
upstream status, header or body byte. -/
theorem C10_failures_answer_500 (W : World) (target : Str) (r : Request) :
    (∀ e : Str, W.urlParse (W.urlString r.URL) = none →
      W.newRequest r.Method (targetURL target r) = some e →
      (handleRequest W target r).w = errorResponse (lit "Error creating proxy request") 500 ∧
      (handleRequest W target r).sent = [] ∧
      (handleRequest W target r).reads = 0 ∧
      (handleRequest W target r).returned = true) ∧
    (∀ e : Str, W.urlParse (W.urlString r.URL) = none →
      W.newRequest r.Method (targetURL target r) = none →
      Contains (targetURL target r) (lit "aiplatform.googleapis.com") = true →
      W.cmdOutput = .error e →
      (handleRequest W target r).w =
        errorResponse (lit "Error getting vertex auth token") 500 ∧
      (handleRequest W target r).sent = [] ∧
      (handleRequest W target r).reads = 0 ∧
      (handleRequest W target r).returned = true) ∧
    (∀ (q : ProxyRequest) (e : Str), q ∈ (handleRequest W target r).sent →
      W.clientDo q = .error e →
      (handleRequest W target r).w = errorResponse e 500 ∧
      (handleRequest W target r).sent = [q] ∧
      (handleRequest W target r).reads = 0 ∧
      (handleRequest W target r).returned = true) := by
  refine ⟨?_, ?_, ?_⟩
  · intro e h1 h2
    by_cases hp : W.getenv (lit "ENV") = lit "local" <;>
      simp [handleRequest, h1, h2, hp] <;> rfl
  · intro e h1 h2 h3 h4
    have htok : getVertexAuthToken W = .error (lit "failed to get access token: " ++ e) := by
      unfold getVertexAuthToken; rw [h4]
    by_cases hp : W.getenv (lit "ENV") = lit "local" <;>
      simp [handleRequest, h1, h2, h3, htok, hp] <;> rfl
  · intro q e hq hdo
    have hs := (mem_sent W target r q hq).2.2.1
    have hf : handleRequest W target r =
        forward W
          { tokenCalls :=
              if Contains (targetURL target r) (lit "aiplatform.googleapis.com") then 1 else 0
            printed :=
              if W.getenv (lit "ENV") = lit "local" then
                [lit "Proxying request to: " ++ targetURL target r ++ [10]]
              else [] }
          q := handleRequest_of_sent W target r q hq
    unfold forward at hf
    rw [hdo] at hf
    refine ⟨?_, hs, ?_, ?_⟩
    · rw [hf]; rfl
    · rw [hf]
    · rw [hf]

theorem C10_failures_answer_500_witness :
    ((handleRequest buildFailWorld (lit "https://api.openai.com")
          (sampleRequest "/a%b" "" [])).w =
        errorResponse (lit "Error creating proxy request") 500 ∧
      (handleRequest buildFailWorld (lit "https://api.openai.com")
          (sampleRequest "/a%b" "" [])).sent = [] ∧
      (handleRequest buildFailWorld (lit "https://api.openai.com")
          (sampleRequest "/a%b" "" [])).reads = 0 ∧
      (handleRequest buildFailWorld (lit "https://api.openai.com")
          (sampleRequest "/a%b" "" [])).returned = true) ∧
    ((handleRequest tokenFailWorld (lit "https://us-aiplatform.googleapis.com")
          (sampleRequest "/v1/x" "" [])).w =
        errorResponse (lit "Error getting vertex auth token") 500 ∧
      (handleRequest tokenFailWorld (lit "https://us-aiplatform.googleapis.com")
          (sampleRequest "/v1/x" "" [])).sent = [] ∧
      (handleRequest tokenFailWorld (lit "https://us-aiplatform.googleapis.com")
          (sampleRequest "/v1/x" "" [])).reads = 0 ∧
      (handleRequest tokenFailWorld (lit "https://us-aiplatform.googleapis.com")
          (sampleRequest "/v1/x" "" [])).returned = true) ∧
    ((handleRequest upstreamFailWorld (lit "https://api.openai.com")
          (sampleRequest "/v1/models" "" [])).w =
        errorResponse (lit "dial tcp: connection refused") 500 ∧
      (handleRequest upstreamFailWorld (lit "https://api.openai.com")
          (sampleRequest "/v1/models" "" [])).sent =
        [{ Method := lit "GET", URL := lit "https://api.openai.com/v1/models", Header := [],
           Body := [] }] ∧
      (handleRequest upstreamFailWorld (lit "https://api.openai.com")
          (sampleRequest "/v1/models" "" [])).reads = 0 ∧
      (handleRequest upstreamFailWorld (lit "https://api.openai.com")
          (sampleRequest "/v1/models" "" [])).returned = true) :=
  ⟨(C10_failures_answer_500 buildFailWorld (lit "https://api.openai.com")
      (sampleRequest "/a%b" "" [])).1 (lit "invalid URL escape") rfl rfl,
   (C10_failures_answer_500 tokenFailWorld (lit "https://us-aiplatform.googleapis.com")
      (sampleRequest "/v1/x" "" [])).2.1 (lit "exit status 1") rfl rfl (by decide) rfl,
   (C10_failures_answer_500 upstreamFailWorld (lit "https://api.openai.com")
      (sampleRequest "/v1/models" "" [])).2.2
      { Method := lit "GET", URL := lit "https://api.openai.com/v1/models", Header := [],
        Body := [] }
      (lit "dial tcp: connection refused") (by decide) rfl⟩

end OpenAIProxy
